import Mathlib

/-!
# Verification of the DXF-to-DAT airfoil converter

Shallow embedding of `dxf2dat.py`.  Points are modelled with exact
rationals; the DXF container parsing is external (spec §1), so the input
of the pipeline is the list of polyline vertex sequences the Curve
Extractor pulls out of the document.  Python exceptions are modelled
with `Except`: `ValueError` for the explicit raises, `ZeroDivisionError`
for a rational division whose divisor is zero (Python raises on float
division by zero).  The text written to the output file is modelled as a
list of structured lines; opening the output file for writing (which
creates or truncates it) is recorded by `fileOpened`.
-/

namespace Dxf2Dat

/-- A 2D point, `(x, y)` with exact rational coordinates. -/
abbrev Point : Type := ℚ × ℚ

/-- An ordered vertex sequence extracted from one polyline entity. -/
abbrev Curve : Type := List Point

/-- The Python exceptions the pipeline can raise. -/
inductive PyErr : Type where
  | valueError (msg : String) : PyErr
  | zeroDivisionError : PyErr
  deriving DecidableEq, Repr

/-- One line of the output file: the header label, the lednicer counts
line, a coordinate line, or a blank line. -/
inductive Line : Type where
  | label (s : String) : Line
  | counts (nu nl : ℕ) : Line
  | coord (p : Point) : Line
  | blank : Line
  deriving DecidableEq, Repr

/-- Result of a conversion run that reached the writer: the output file
was opened (created or truncated) and `lines` were written to it. -/
structure RunResult : Type where
  fileOpened : Bool
  lines : List Line
  deriving DecidableEq, Repr

/-! ## Python list.sort / sorted: a stable sort

Python's `sorted` is a stable sort; a stable sort by a boolean total
preorder is extensionally unique, so we model it by stable insertion:
`pyInsert le x l` puts `x` after every element `y` of `l` with
`le y x = true` (so among key-equal elements the earlier original
element stays first). -/

/-- Stable insertion: `x` goes after each `y` with `le y x`. -/
def pyInsert (le : α → α → Bool) (x : α) : List α → List α
  | [] => [x]
  | y :: ys => if le y x then y :: pyInsert le x ys else x :: y :: ys

/-- Python's stable sort: left fold of stable insertions. -/
def pySorted (le : α → α → Bool) (l : List α) : List α :=
  l.foldl (fun acc x => pyInsert le x acc) []

/-! ## Python min / max over a sequence of values -/

/-- `xs.foldl min x`: the value Python's `min` returns on `x :: xs`. -/
def foldMin (x : ℚ) (xs : List ℚ) : ℚ := xs.foldl min x

/-- `xs.foldl max x`: the value Python's `max` returns on `x :: xs`. -/
def foldMax (x : ℚ) (xs : List ℚ) : ℚ := xs.foldl max x

/-- Python `min(xs)`: raises `ValueError` on an empty sequence. -/
def pyMinList : List ℚ → Except PyErr ℚ
  | [] => Except.error (PyErr.valueError "min() arg is an empty sequence")
  | x :: xs => Except.ok (foldMin x xs)

/-- Python `max(xs)`: raises `ValueError` on an empty sequence. -/
def pyMaxList : List ℚ → Except PyErr ℚ
  | [] => Except.error (PyErr.valueError "max() arg is an empty sequence")
  | x :: xs => Except.ok (foldMax x xs)

/-- `min(range(len(pts)), key=lambda i: pts[i][0])`: Python's `min`
returns the first item attaining the minimal key, so this is the index
of the first point of minimal x-coordinate. -/
def argminFst : Curve → ℕ
  | [] => 0
  | p :: rest =>
    let j := argminFst rest
    match rest[j]? with
    | none => 0
    | some q => if q.1 < p.1 then j + 1 else 0

/-- `str.replace(pat, repl)` on character lists, with fuel bounded by the
length of the subject (each step consumes at least one character):
replaces every non-overlapping occurrence, scanning left to right. -/
def pyReplaceAux (pat repl : List Char) : ℕ → List Char → List Char
  | 0, s => s
  | _ + 1, [] => []
  | fuel + 1, c :: rest =>
    if pat ≠ [] ∧ pat.isPrefixOf (c :: rest) then
      repl ++ pyReplaceAux pat repl fuel ((c :: rest).drop pat.length)
    else
      c :: pyReplaceAux pat repl fuel rest

/-- Python `s.replace(pat, repl)`. -/
def pyReplace (s pat repl : String) : String :=
  String.mk (pyReplaceAux pat.data repl.data s.data.length s.data)

/-- Python `s.upper()` (ASCII, which is all the program produces). -/
def pyUpper (s : String) : String := String.mk (s.data.map Char.toUpper)

/-- Python `s.lower()` (ASCII). -/
def pyLower (s : String) : String := String.mk (s.data.map Char.toLower)

/-! ## The pipeline stages of `extract_airfoil_from_dxf` -/

/-- Mean of the y-coordinates of a curve: `sum(y for _, y in pts)/len(pts)`. -/
def meanY (pts : Curve) : ℚ := (pts.map Prod.snd).sum / (pts.length : ℚ)

/-- Sort key for the two-curve case: `sort(key=mean-y, reverse=True)`
keeps `a` before `b` iff `meanY b ≤ meanY a` (stable descending). -/
def meanDescLe (a b : Curve) : Bool := decide (meanY b ≤ meanY a)

/-- Surface Classifier (lines 33-42): two curves are sorted by
descending mean y and unpacked as `upper, lower`; a single curve is
split at the first index of minimal x, the prefix through that index
becoming `upper` and the suffix from it becoming `lower`; any other
count raises `ValueError`. -/
def classify (polylines : List Curve) : Except PyErr (Curve × Curve) :=
  match polylines with
  | [a, b] =>
    match pySorted meanDescLe [a, b] with
    | [u, l] => Except.ok (u, l)
    | _ => Except.error (PyErr.valueError "cannot unpack")
  | [pts] =>
    let i := argminFst pts
    Except.ok (pts.take (i + 1), pts.drop i)
  | _ =>
    Except.error (PyErr.valueError
      ("Expected 1-2 polylines, found " ++ toString polylines.length))

/-- Sort key for the upper surface, `sorted(upper, key=lambda p: -p[0])`:
stable ascending in `-x`, i.e. `p` before `q` iff `q.1 ≤ p.1`. -/
def descXLe (p q : Point) : Bool := decide (q.1 ≤ p.1)

/-- Sort key for the lower surface, `sorted(lower, key=lambda p: p[0])`. -/
def ascXLe (p q : Point) : Bool := decide (p.1 ≤ q.1)

/-- The affine remap of `normalize` (line 50-51). -/
def normPt (le_point : Point) (chord : ℚ) (p : Point) : Point :=
  ((p.1 - le_point.1) / chord, (p.2 - le_point.2) / chord)

/-- Chord Normalizer and Surface Orderer (lines 44-57): `min_x`/`max_x`
over the union of both surfaces, the leading-edge point is the first
point of the union whose x equals `min_x`, and each surface is sorted
(`upper` by descending x, `lower` by ascending x) and remapped.  When
`chord_length` is zero the first division raises `ZeroDivisionError`
(`upper` is never empty at this program point). -/
def normalizeStage (upper lower : Curve) : Except PyErr (Curve × Curve) :=
  let allPts := upper ++ lower
  match pyMinList (allPts.map Prod.fst) with
  | Except.error e => Except.error e
  | Except.ok min_x =>
    match pyMaxList (allPts.map Prod.fst) with
    | Except.error e => Except.error e
    | Except.ok max_x =>
      match allPts.find? (fun p => p.1 = min_x) with
      | none => Except.error (PyErr.valueError "StopIteration")
      | some le_point =>
        let chord_length := max_x - min_x
        if chord_length = 0 then
          Except.error PyErr.zeroDivisionError
        else
          Except.ok ((pySorted descXLe upper).map (normPt le_point chord_length),
                     (pySorted ascXLe lower).map (normPt le_point chord_length))

/-- Format Writer (lines 63-85).  The output file is opened for writing
(created or truncated) before the format is examined; `selig` writes the
label then `upper_norm ++ lower_norm[1:]`; `lednicer` writes the
uppercased label with " AIRFOIL", the counts line, a blank line, the
reversed upper surface, a blank line, and the lower surface; any other
selector matches no branch, so nothing is written and no error is
raised. -/
def writeStage (upper_norm lower_norm : Curve)
    (output_filename file_format : String) : RunResult :=
  if file_format = "selig" then
    let combined := upper_norm ++ lower_norm.drop 1
    { fileOpened := true
      lines := Line.label (pyReplace output_filename ".dat" "")
                 :: combined.map Line.coord }
  else if file_format = "lednicer" then
    { fileOpened := true
      lines := Line.label (pyUpper (pyReplace output_filename ".dat" "")
                             ++ " AIRFOIL")
                 :: Line.counts upper_norm.length lower_norm.length
                 :: Line.blank
                 :: (upper_norm.reverse.map Line.coord
                      ++ Line.blank :: lower_norm.map Line.coord) }
  else
    { fileOpened := true, lines := [] }

/-- `extract_airfoil_from_dxf`, from the point where the external DXF
parser has produced the vertex sequences `entities` (one per
POLYLINE/LWPOLYLINE entity, in document order): empty entities are
dropped (line 30), the rest are classified, normalized, ordered and
written. -/
def extract_airfoil_from_dxf (entities : List Curve)
    (output_filename : String) (file_format : String := "selig") :
    Except PyErr RunResult :=
  let polylines := entities.filter (fun pts => !pts.isEmpty)
  match classify polylines with
  | Except.error e => Except.error e
  | Except.ok (upper, lower) =>
    match normalizeStage upper lower with
    | Except.error e => Except.error e
    | Except.ok (upper_norm, lower_norm) =>
      Except.ok (writeStage upper_norm lower_norm output_filename file_format)

/-- One iteration of the interactive format prompt (lines 102-110):
the answer is lowercased; `s`/`selig` select `selig`, `l`/`lednicer`
select `lednicer`, anything else re-prompts (`none`). -/
def resolveFormat (answer : String) : Option String :=
  let fmt := pyLower answer
  if fmt = "s" ∨ fmt = "selig" then some "selig"
  else if fmt = "l" ∨ fmt = "lednicer" then some "lednicer"
  else none

/-- Modelled from the spec: the label §4.5 prescribes, "derived from the
requested output file's base name, without extension": the part of the
path after the last separator, with the suffix starting at its last dot
removed.  Used only to compare the spec's wording with the code's
label. -/
def specLabel (output_filename : String) : String :=
  let base := (output_filename.data.splitOn '/').getLast? |>.getD []
  let stem :=
    if '.' ∈ base then
      (base.reverse.dropWhile (fun c => c ≠ '.')).drop 1 |>.reverse
    else base
  String.mk stem

/-! ## Lemmas about the stable sort -/

theorem mem_pyInsert (le : α → α → Bool) (x z : α) (l : List α) :
    z ∈ pyInsert le x l ↔ z = x ∨ z ∈ l := by
  induction l with
  | nil => simp [pyInsert]
  | cons y ys ih =>
    by_cases h : le y x = true
    · simp only [pyInsert]
      rw [if_pos h]
      simp only [List.mem_cons, ih]
      tauto
    · simp only [pyInsert]
      rw [if_neg h]
      simp only [List.mem_cons]

theorem pyInsert_perm (le : α → α → Bool) (x : α) (l : List α) :
    (pyInsert le x l).Perm (x :: l) := by
  induction l with
  | nil => simp [pyInsert]
  | cons y ys ih =>
    by_cases h : le y x = true
    · simp only [pyInsert]
      rw [if_pos h]
      exact (ih.cons y).trans (List.Perm.swap x y ys)
    · simp [pyInsert, h]

theorem pySorted_foldl_perm (le : α → α → Bool) (l acc : List α) :
    (l.foldl (fun acc x => pyInsert le x acc) acc).Perm (l ++ acc) := by
  induction l generalizing acc with
  | nil => simp
  | cons x xs ih =>
    simp only [List.foldl_cons, List.cons_append]
    exact (ih (pyInsert le x acc)).trans
      ((List.Perm.append_left xs (pyInsert_perm le x acc)).trans List.perm_middle)

theorem pySorted_perm (le : α → α → Bool) (l : List α) :
    (pySorted le l).Perm l := by
  simpa using pySorted_foldl_perm le l []

theorem mem_pySorted (le : α → α → Bool) (l : List α) (z : α) :
    z ∈ pySorted le l ↔ z ∈ l :=
  (pySorted_perm le l).mem_iff

theorem length_pySorted (le : α → α → Bool) (l : List α) :
    (pySorted le l).length = l.length :=
  (pySorted_perm le l).length_eq

theorem pairwise_pyInsert (le : α → α → Bool)
    (htot : ∀ a b, le a b = true ∨ le b a = true)
    (htrans : ∀ a b c, le a b = true → le b c = true → le a c = true)
    (x : α) (l : List α)
    (hl : l.Pairwise (fun a b => le a b = true)) :
    (pyInsert le x l).Pairwise (fun a b => le a b = true) := by
  induction l with
  | nil => simp [pyInsert]
  | cons y ys ih =>
    rcases List.pairwise_cons.mp hl with ⟨hy, hys⟩
    by_cases h : le y x = true
    · simp only [pyInsert]
      rw [if_pos h]
      refine List.pairwise_cons.mpr ⟨?_, ih hys⟩
      intro z hz
      rcases (mem_pyInsert le x z ys).mp hz with rfl | hz
      · exact h
      · exact hy z hz
    · simp only [pyInsert]
      rw [if_neg h]
      have hxy : le x y = true := (htot x y).resolve_right h
      refine List.pairwise_cons.mpr ⟨?_, hl⟩
      intro z hz
      rcases List.mem_cons.mp hz with rfl | hz
      · exact hxy
      · exact htrans x y z hxy (hy z hz)

theorem pairwise_pySorted_aux (le : α → α → Bool)
    (htot : ∀ a b, le a b = true ∨ le b a = true)
    (htrans : ∀ a b c, le a b = true → le b c = true → le a c = true)
    (l acc : List α) (hacc : acc.Pairwise (fun a b => le a b = true)) :
    (l.foldl (fun acc x => pyInsert le x acc) acc).Pairwise
      (fun a b => le a b = true) := by
  induction l generalizing acc with
  | nil => exact hacc
  | cons x xs ih =>
    exact ih (pyInsert le x acc) (pairwise_pyInsert le htot htrans x acc hacc)

theorem pairwise_pySorted (le : α → α → Bool)
    (htot : ∀ a b, le a b = true ∨ le b a = true)
    (htrans : ∀ a b c, le a b = true → le b c = true → le a c = true)
    (l : List α) :
    (pySorted le l).Pairwise (fun a b => le a b = true) :=
  pairwise_pySorted_aux le htot htrans l [] List.Pairwise.nil

theorem foldl_pyInsert_cons (le : α → α → Bool) (a : α) (l acc : List α)
    (h : ∀ b ∈ l, le a b = true) :
    l.foldl (fun acc x => pyInsert le x acc) (a :: acc)
      = a :: l.foldl (fun acc x => pyInsert le x acc) acc := by
  induction l generalizing acc with
  | nil => rfl
  | cons x xs ih =>
    have hx : le a x = true := h x (List.mem_cons_self x xs)
    simp only [List.foldl_cons, pyInsert]
    rw [if_pos hx]
    exact ih (pyInsert le x acc) (fun b hb => h b (List.mem_cons_of_mem _ hb))

/-- Stability at the head: if the first element's key is minimal, a
stable ascending sort keeps it first. -/
theorem pySorted_cons_of_min (le : α → α → Bool) (a : α) (rest : List α)
    (h : ∀ b ∈ rest, le a b = true) :
    pySorted le (a :: rest) = a :: pySorted le rest := by
  unfold pySorted
  simp only [List.foldl_cons]
  exact foldl_pyInsert_cons le a rest [] h

theorem pyInsert_eq_append (le : α → α → Bool) (x : α) (l : List α)
    (h : ∀ y ∈ l, le y x = true) :
    pyInsert le x l = l ++ [x] := by
  induction l with
  | nil => rfl
  | cons y ys ih =>
    have hy : le y x = true := h y (List.mem_cons_self y ys)
    simp only [pyInsert]
    rw [if_pos hy, List.cons_append]
    exact congrArg _ (ih (fun z hz => h z (List.mem_cons_of_mem _ hz)))

/-- An element whose key is below every other key is sorted to the end. -/
theorem pySorted_concat_of_max (le : α → α → Bool) (front : List α) (m : α)
    (h : ∀ y ∈ front, le y m = true) :
    pySorted le (front ++ [m]) = pySorted le front ++ [m] := by
  unfold pySorted
  rw [List.foldl_append]
  simp only [List.foldl_cons, List.foldl_nil]
  exact pyInsert_eq_append le m _
    (fun y hy => h y ((pySorted_perm le front).mem_iff.mp hy))

theorem pySorted_pair (le : α → α → Bool) (a b : α) :
    pySorted le [a, b] = if le a b then [a, b] else [b, a] := by
  by_cases h : le a b = true <;>
    simp [pySorted, pyInsert, h]

/-! ## Lemmas about Python min/max -/

theorem foldMin_le (xs : List ℚ) : ∀ (x : ℚ), ∀ y ∈ x :: xs, foldMin x xs ≤ y := by
  induction xs with
  | nil =>
    intro x y hy
    simp only [List.mem_singleton] at hy
    simp [foldMin, hy]
  | cons z zs ih =>
    intro x y hy
    have hstep : foldMin x (z :: zs) = foldMin (min x z) zs := rfl
    rw [hstep]
    rcases List.mem_cons.mp hy with hxy | hy
    · rw [hxy]
      exact le_trans (ih (min x z) _ (List.mem_cons_self _ _)) (min_le_left x z)
    · rcases List.mem_cons.mp hy with hzy | hy
      · rw [hzy]
        exact le_trans (ih (min x z) _ (List.mem_cons_self _ _)) (min_le_right x z)
      · exact ih (min x z) y (List.mem_cons_of_mem _ hy)

theorem foldMin_mem (xs : List ℚ) : ∀ (x : ℚ), foldMin x xs ∈ x :: xs := by
  induction xs with
  | nil => intro x; simp [foldMin]
  | cons z zs ih =>
    intro x
    have hstep : foldMin x (z :: zs) = foldMin (min x z) zs := rfl
    rw [hstep]
    rcases List.mem_cons.mp (ih (min x z)) with hm | hm
    · rcases min_choice x z with hc | hc <;> rw [hm, hc] <;> simp
    · simp [List.mem_cons_of_mem, hm]

theorem foldMin_eq_of (x : ℚ) (xs : List ℚ) (v : ℚ) (hmem : v ∈ x :: xs)
    (hlb : ∀ y ∈ x :: xs, v ≤ y) : foldMin x xs = v :=
  le_antisymm (foldMin_le xs x v hmem) (hlb _ (foldMin_mem xs x))

theorem le_foldMax (xs : List ℚ) : ∀ (x : ℚ), ∀ y ∈ x :: xs, y ≤ foldMax x xs := by
  induction xs with
  | nil =>
    intro x y hy
    simp only [List.mem_singleton] at hy
    simp [foldMax, hy]
  | cons z zs ih =>
    intro x y hy
    have hstep : foldMax x (z :: zs) = foldMax (max x z) zs := rfl
    rw [hstep]
    rcases List.mem_cons.mp hy with hxy | hy
    · rw [hxy]
      exact le_trans (le_max_left x z) (ih (max x z) _ (List.mem_cons_self _ _))
    · rcases List.mem_cons.mp hy with hzy | hy
      · rw [hzy]
        exact le_trans (le_max_right x z) (ih (max x z) _ (List.mem_cons_self _ _))
      · exact ih (max x z) y (List.mem_cons_of_mem _ hy)

theorem foldMax_mem (xs : List ℚ) : ∀ (x : ℚ), foldMax x xs ∈ x :: xs := by
  induction xs with
  | nil => intro x; simp [foldMax]
  | cons z zs ih =>
    intro x
    have hstep : foldMax x (z :: zs) = foldMax (max x z) zs := rfl
    rw [hstep]
    rcases List.mem_cons.mp (ih (max x z)) with hm | hm
    · rcases max_choice x z with hc | hc <;> rw [hm, hc] <;> simp
    · simp [List.mem_cons_of_mem, hm]

theorem foldMax_eq_of (x : ℚ) (xs : List ℚ) (v : ℚ) (hmem : v ∈ x :: xs)
    (hub : ∀ y ∈ x :: xs, y ≤ v) : foldMax x xs = v :=
  le_antisymm (hub _ (foldMax_mem xs x)) (le_foldMax xs x v hmem)

theorem foldMin_le_foldMax (x : ℚ) (xs : List ℚ) : foldMin x xs ≤ foldMax x xs :=
  foldMin_le xs x _ (foldMax_mem xs x)

/-! ## The leading-edge index -/

theorem argminFst_spec (pts : Curve) (h : pts ≠ []) :
    ∃ m, pts[argminFst pts]? = some m ∧ (∀ q ∈ pts, m.1 ≤ q.1) ∧
      (∀ j, j < argminFst pts → ∀ q, pts[j]? = some q → m.1 < q.1) := by
  induction pts with
  | nil => exact absurd rfl h
  | cons p rest ih =>
    cases rest with
    | nil =>
      refine ⟨p, by simp [argminFst], ?_, ?_⟩
      · intro q hq
        simp only [List.mem_singleton] at hq
        simp [hq]
      · intro j hj
        simp [argminFst] at hj
    | cons r rs =>
      obtain ⟨m, hm, hmin, hfirst⟩ := ih (by simp)
      have harg : argminFst (p :: r :: rs)
          = if m.1 < p.1 then argminFst (r :: rs) + 1 else 0 := by
        have hdef : argminFst (p :: r :: rs)
            = match (r :: rs)[argminFst (r :: rs)]? with
              | none => 0
              | some q => if q.1 < p.1 then argminFst (r :: rs) + 1 else 0 := rfl
        rw [hdef, hm]
      by_cases hlt : m.1 < p.1
      · rw [harg, if_pos hlt]
        refine ⟨m, by simpa using hm, ?_, ?_⟩
        · intro q hq
          rcases List.mem_cons.mp hq with rfl | hq
          · exact le_of_lt hlt
          · exact hmin q hq
        · intro j hj q hq
          cases j with
          | zero =>
            simp only [List.getElem?_cons_zero, Option.some.injEq] at hq
            rw [← hq]
            exact hlt
          | succ k =>
            have hk : k < argminFst (r :: rs) := Nat.lt_of_succ_lt_succ hj
            exact hfirst k hk q (by simpa using hq)
      · rw [harg, if_neg hlt]
        refine ⟨p, by simp, ?_, ?_⟩
        · intro q hq
          rcases List.mem_cons.mp hq with rfl | hq
          · exact le_refl _
          · exact le_trans (le_of_not_lt hlt) (hmin q hq)
        · intro j hj
          exact absurd hj (Nat.not_lt_zero j)

theorem argminFst_lt_length (pts : Curve) (h : pts ≠ []) :
    argminFst pts < pts.length := by
  obtain ⟨m, hm, -, -⟩ := argminFst_spec pts h
  exact (List.getElem?_eq_some_iff.mp hm).1

/-! ## Unfolding the pipeline stages -/

theorem classify_pair (a b : Curve) :
    classify [a, b]
      = if meanDescLe a b then Except.ok (a, b) else Except.ok (b, a) := by
  by_cases h : meanDescLe a b = true
  · simp [classify, pySorted_pair, h]
  · simp [classify, pySorted_pair, h]

theorem classify_two_cases {a b u l : Curve}
    (h : classify [a, b] = Except.ok (u, l)) :
    (u = a ∧ l = b) ∨ (u = b ∧ l = a) := by
  rw [classify_pair] at h
  by_cases hab : meanDescLe a b = true
  · rw [if_pos hab] at h
    simp only [Except.ok.injEq, Prod.mk.injEq] at h
    exact Or.inl ⟨h.1.symm, h.2.symm⟩
  · rw [if_neg hab] at h
    simp only [Except.ok.injEq, Prod.mk.injEq] at h
    exact Or.inr ⟨h.1.symm, h.2.symm⟩

theorem classify_one (pts : Curve) :
    classify [pts]
      = Except.ok (pts.take (argminFst pts + 1), pts.drop (argminFst pts)) := rfl

theorem classify_ok_ne_nil {polylines : List Curve} {u l : Curve}
    (hne : ∀ c ∈ polylines, c ≠ [])
    (h : classify polylines = Except.ok (u, l)) : u ≠ [] ∧ l ≠ [] := by
  rcases polylines with _ | ⟨a, _ | ⟨b, _ | ⟨c, rest⟩⟩⟩
  · simp [classify] at h
  · rw [classify_one] at h
    simp only [Except.ok.injEq, Prod.mk.injEq] at h
    have hane : a ≠ [] := hne a (by simp)
    have hlt := argminFst_lt_length a hane
    have hlen : 0 < a.length := List.length_pos.mpr hane
    constructor
    · rw [← h.1]
      intro hcon
      have hlen0 : (a.take (argminFst a + 1)).length = 0 := by rw [hcon]; rfl
      rw [List.length_take] at hlen0
      omega
    · rw [← h.2]
      intro hcon
      have hlen0 : (a.drop (argminFst a)).length = 0 := by rw [hcon]; rfl
      rw [List.length_drop] at hlen0
      omega
  · rcases classify_two_cases h with ⟨hu, hl⟩ | ⟨hu, hl⟩
    · exact ⟨hu ▸ hne a (by simp), hl ▸ hne b (by simp)⟩
    · exact ⟨hu ▸ hne b (by simp), hl ▸ hne a (by simp)⟩
  · simp [classify] at h

theorem normalizeStage_ok_elim {upper lower un ln : Curve}
    (h : normalizeStage upper lower = Except.ok (un, ln)) :
    ∃ x0 xs le_point,
      (upper ++ lower).map Prod.fst = x0 :: xs ∧
      (upper ++ lower).find? (fun p => p.1 = foldMin x0 xs) = some le_point ∧
      foldMax x0 xs - foldMin x0 xs ≠ 0 ∧
      un = (pySorted descXLe upper).map
             (normPt le_point (foldMax x0 xs - foldMin x0 xs)) ∧
      ln = (pySorted ascXLe lower).map
             (normPt le_point (foldMax x0 xs - foldMin x0 xs)) := by
  simp only [normalizeStage] at h
  cases hall : (upper ++ lower).map Prod.fst with
  | nil =>
    rw [hall] at h
    simp [pyMinList] at h
  | cons x0 xs =>
    rw [hall] at h
    simp only [pyMinList, pyMaxList] at h
    split at h
    · simp at h
    · rename_i le_point hfind
      split at h
      · simp at h
      · rename_i hc
        simp only [Except.ok.injEq, Prod.mk.injEq] at h
        exact ⟨x0, xs, le_point, rfl, hfind, hc, h.1.symm, h.2.symm⟩

theorem chord_pos {x0 : ℚ} {xs : List ℚ}
    (h : foldMax x0 xs - foldMin x0 xs ≠ 0) :
    0 < foldMax x0 xs - foldMin x0 xs := by
  rcases lt_or_eq_of_le (foldMin_le_foldMax x0 xs) with hlt | heq
  · exact sub_pos.mpr hlt
  · exact absurd (by rw [← heq, sub_self]) h

theorem extract_ok_elim {entities : List Curve} {out fmt : String} {r : RunResult}
    (h : extract_airfoil_from_dxf entities out fmt = Except.ok r) :
    ∃ u l un ln,
      classify (entities.filter (fun pts => !pts.isEmpty)) = Except.ok (u, l) ∧
      normalizeStage u l = Except.ok (un, ln) ∧
      r = writeStage un ln out fmt := by
  simp only [extract_airfoil_from_dxf] at h
  split at h
  · simp at h
  · rename_i u l hc
    split at h
    · simp at h
    · rename_i un ln hn
      simp only [Except.ok.injEq] at h
      exact ⟨u, l, un, ln, hc, hn, h.symm⟩

/-- Writer behaviour for a selector matching neither branch: the file is
opened and nothing is written. -/
theorem writeStage_unknown {fmt : String} (hs : fmt ≠ "selig")
    (hl : fmt ≠ "lednicer") (un ln : Curve) (out : String) :
    writeStage un ln out fmt = ⟨true, []⟩ := by
  simp [writeStage, hs, hl]

theorem extract_ok_unknown {entities : List Curve} {out fmt : String}
    {r : RunResult} (hs : fmt ≠ "selig") (hl : fmt ≠ "lednicer")
    (h : extract_airfoil_from_dxf entities out fmt = Except.ok r) :
    r = ⟨true, []⟩ := by
  obtain ⟨u, l, un, ln, hc, hn, hr⟩ := extract_ok_elim h
  rw [hr, writeStage_unknown hs hl]

theorem descXLe_total (a b : Point) : descXLe a b = true ∨ descXLe b a = true := by
  simp only [descXLe, decide_eq_true_eq]
  exact le_total b.1 a.1

theorem descXLe_trans (a b c : Point) :
    descXLe a b = true → descXLe b c = true → descXLe a c = true := by
  simp only [descXLe, decide_eq_true_eq]
  exact fun h1 h2 => le_trans h2 h1

theorem ascXLe_total (a b : Point) : ascXLe a b = true ∨ ascXLe b a = true := by
  simp only [ascXLe, decide_eq_true_eq]
  exact le_total a.1 b.1

theorem ascXLe_trans (a b c : Point) :
    ascXLe a b = true → ascXLe b c = true → ascXLe a c = true := by
  simp only [ascXLe, decide_eq_true_eq]
  exact fun h1 h2 => le_trans h1 h2

/-! ## The claims -/

/-- C4: for an input yielding exactly two curves, the curve with the
greater mean y-coordinate is labeled `upper` and the other `lower`,
regardless of the order in which the two curves appear. -/
theorem C4_two_curve_mean_order (A B : Curve) (h : meanY B < meanY A) :
    classify [A, B] = Except.ok (A, B) ∧ classify [B, A] = Except.ok (A, B) := by
  have h1 : meanDescLe A B = true := by
    simp only [meanDescLe, decide_eq_true_eq]
    exact le_of_lt h
  have h2 : ¬ meanDescLe B A = true := by
    simp only [meanDescLe, decide_eq_true_eq, not_le]
    exact h
  constructor
  · rw [classify_pair, if_pos h1]
  · rw [classify_pair, if_neg h2]

theorem C4_two_curve_mean_order_witness :
    classify [[(((0:ℚ)),((1:ℚ)))], [(((0:ℚ)),((0:ℚ)))]]
        = Except.ok ([((0:ℚ),(1:ℚ))], [((0:ℚ),(0:ℚ))]) ∧
    classify [[(((0:ℚ)),((0:ℚ)))], [(((0:ℚ)),((1:ℚ)))]]
        = Except.ok ([((0:ℚ),(1:ℚ))], [((0:ℚ),(0:ℚ))]) :=
  C4_two_curve_mean_order [((0:ℚ),(1:ℚ))] [((0:ℚ),(0:ℚ))]
    (by norm_num [meanY])

/-- C6: on every successful normalization the upper surface is sorted by
descending x (trailing edge first, leading edge last) and the lower
surface by ascending x (leading edge first, trailing edge last). -/
theorem C6_surface_ordering {u l un ln : Curve}
    (h : normalizeStage u l = Except.ok (un, ln)) :
    un.Pairwise (fun p q => q.1 ≤ p.1) ∧ ln.Pairwise (fun p q => p.1 ≤ q.1) := by
  obtain ⟨x0, xs, le_pt, hall, hfind, hch, hun, hln⟩ := normalizeStage_ok_elim h
  have hpos : 0 < foldMax x0 xs - foldMin x0 xs := chord_pos hch
  constructor
  · rw [hun, List.pairwise_map]
    refine (pairwise_pySorted descXLe descXLe_total descXLe_trans u).imp ?_
    intro a b hab
    simp only [descXLe, decide_eq_true_eq] at hab
    simp only [normPt]
    exact (div_le_div_iff_of_pos_right hpos).mpr (sub_le_sub_right hab _)
  · rw [hln, List.pairwise_map]
    refine (pairwise_pySorted ascXLe ascXLe_total ascXLe_trans l).imp ?_
    intro a b hab
    simp only [ascXLe, decide_eq_true_eq] at hab
    simp only [normPt]
    exact (div_le_div_iff_of_pos_right hpos).mpr (sub_le_sub_right hab _)

theorem C6_surface_ordering_witness :
    (normalizeStage [((0:ℚ),(0:ℚ)), ((10:ℚ),(5:ℚ))] [((0:ℚ),(0:ℚ)), ((10:ℚ),(5:ℚ))]
        = Except.ok ([((1:ℚ),(1:ℚ)/2), ((0:ℚ),(0:ℚ))], [((0:ℚ),(0:ℚ)), ((1:ℚ),(1:ℚ)/2)])) ∧
    ([((1:ℚ),(1:ℚ)/2), ((0:ℚ),(0:ℚ))].Pairwise (fun p q : Point => q.1 ≤ p.1) ∧
     [((0:ℚ),(0:ℚ)), ((1:ℚ),(1:ℚ)/2)].Pairwise (fun p q : Point => p.1 ≤ q.1)) :=
  ⟨by with_unfolding_all rfl,
   @C6_surface_ordering [((0:ℚ),(0:ℚ)), ((10:ℚ),(5:ℚ))] [((0:ℚ),(0:ℚ)), ((10:ℚ),(5:ℚ))]
     [((1:ℚ),(1:ℚ)/2), ((0:ℚ),(0:ℚ))] [((0:ℚ),(0:ℚ)), ((1:ℚ),(1:ℚ)/2)]
     (by with_unfolding_all rfl)⟩

/-- C3: on every successful normalization each point (x, y) is remapped
to ((x - le.x)/chord, (y - le.y)/chord), and the leading-edge point
itself maps exactly to (0, 0), which appears among the output points. -/
theorem C3_normalize_remap {u l un ln : Curve}
    (h : normalizeStage u l = Except.ok (un, ln)) :
    ∃ (le_pt : Point) (chord : ℚ), chord ≠ 0 ∧ le_pt ∈ u ++ l ∧
      (∀ p : Point, normPt le_pt chord p
        = ((p.1 - le_pt.1) / chord, (p.2 - le_pt.2) / chord)) ∧
      un = (pySorted descXLe u).map (normPt le_pt chord) ∧
      ln = (pySorted ascXLe l).map (normPt le_pt chord) ∧
      normPt le_pt chord le_pt = ((0:ℚ), (0:ℚ)) ∧
      ((0:ℚ), (0:ℚ)) ∈ un ++ ln := by
  obtain ⟨x0, xs, le_pt, hall, hfind, hch, hun, hln⟩ := normalizeStage_ok_elim h
  have hmem : le_pt ∈ u ++ l := List.mem_of_find?_eq_some hfind
  have hzero : normPt le_pt (foldMax x0 xs - foldMin x0 xs) le_pt
      = ((0:ℚ), (0:ℚ)) := by
    simp [normPt]
  refine ⟨le_pt, foldMax x0 xs - foldMin x0 xs, hch, hmem,
    fun p => rfl, hun, hln, hzero, ?_⟩
  rcases List.mem_append.mp hmem with hmu | hml
  · refine List.mem_append.mpr (Or.inl ?_)
    rw [hun, ← hzero]
    exact List.mem_map_of_mem _ ((mem_pySorted descXLe u le_pt).mpr hmu)
  · refine List.mem_append.mpr (Or.inr ?_)
    rw [hln, ← hzero]
    exact List.mem_map_of_mem _ ((mem_pySorted ascXLe l le_pt).mpr hml)

theorem C3_normalize_remap_witness :
    ∃ (le_pt : Point) (chord : ℚ), chord ≠ 0 ∧
      le_pt ∈ ([((0:ℚ),(0:ℚ)), ((10:ℚ),(5:ℚ))] ++ [((0:ℚ),(0:ℚ)), ((10:ℚ),(5:ℚ))]) ∧
      (∀ p : Point, normPt le_pt chord p
        = ((p.1 - le_pt.1) / chord, (p.2 - le_pt.2) / chord)) ∧
      [((1:ℚ),(1:ℚ)/2), ((0:ℚ),(0:ℚ))]
        = (pySorted descXLe [((0:ℚ),(0:ℚ)), ((10:ℚ),(5:ℚ))]).map (normPt le_pt chord) ∧
      [((0:ℚ),(0:ℚ)), ((1:ℚ),(1:ℚ)/2)]
        = (pySorted ascXLe [((0:ℚ),(0:ℚ)), ((10:ℚ),(5:ℚ))]).map (normPt le_pt chord) ∧
      normPt le_pt chord le_pt = ((0:ℚ), (0:ℚ)) ∧
      ((0:ℚ), (0:ℚ)) ∈ ([((1:ℚ),(1:ℚ)/2), ((0:ℚ),(0:ℚ))] ++ [((0:ℚ),(0:ℚ)), ((1:ℚ),(1:ℚ)/2)]) :=
  C3_normalize_remap (by with_unfolding_all rfl)

/-- C10: the selig writer drops the first element of the
ascending-sorted lower surface unconditionally, with no check that it
equals the last upper point; on a concrete two-curve input whose lower
minimum-x point differs from the upper leading edge, that point is
silently omitted although it is not a duplicate. -/
theorem C10_unconditional_elision :
    (∀ (un ln : Curve) (out : String),
        (writeStage un ln out "selig").lines
          = Line.label (pyReplace out ".dat" "") :: (un ++ ln.drop 1).map Line.coord) ∧
    (extract_airfoil_from_dxf
        [[((0:ℚ),(1:ℚ)), ((10:ℚ),(2:ℚ))], [((2:ℚ),(-1:ℚ)), ((10:ℚ),(-2:ℚ))]]
        "w.dat" "selig"
      = Except.ok ⟨true, [Line.label "w", Line.coord ((1:ℚ), (1:ℚ)/10),
                          Line.coord ((0:ℚ), (0:ℚ)), Line.coord ((1:ℚ), (-3:ℚ)/10)]⟩ ∧
     normalizeStage [((0:ℚ),(1:ℚ)), ((10:ℚ),(2:ℚ))] [((2:ℚ),(-1:ℚ)), ((10:ℚ),(-2:ℚ))]
      = Except.ok ([((1:ℚ), (1:ℚ)/10), ((0:ℚ), (0:ℚ))],
                   [((1:ℚ)/5, (-1:ℚ)/5), ((1:ℚ), (-3:ℚ)/10)]) ∧
     (((1:ℚ)/5, (-1:ℚ)/5) : Point) ≠ ((0:ℚ), (0:ℚ)) ∧
     Line.coord ((1:ℚ)/5, (-1:ℚ)/5) ∉
       [Line.label "w", Line.coord ((1:ℚ), (1:ℚ)/10),
        Line.coord ((0:ℚ), (0:ℚ)), Line.coord ((1:ℚ), (-3:ℚ)/10)]) := by
  constructor
  · intro un ln out
    simp [writeStage]
  · exact ⟨by with_unfolding_all rfl, by with_unfolding_all rfl,
      by with_unfolding_all decide, by with_unfolding_all decide⟩

/-- When every point of both surfaces has the same x-coordinate, the
chord length is zero and the normalizer raises `ZeroDivisionError`. -/
theorem normalizeStage_const_x {u l : Curve} {a : ℚ} (hne : u ++ l ≠ [])
    (hx : ∀ p ∈ u ++ l, p.1 = a) :
    normalizeStage u l = Except.error PyErr.zeroDivisionError := by
  obtain ⟨p0, rest, hcons⟩ := List.exists_cons_of_ne_nil hne
  have hxall : ∀ y ∈ p0.1 :: rest.map Prod.fst, y = a := by
    intro y hy
    rcases List.mem_cons.mp hy with hy0 | hy1
    · rw [hy0]
      exact hx p0 (by rw [hcons]; exact List.mem_cons_self _ _)
    · obtain ⟨q, hq, hqy⟩ := List.mem_map.mp hy1
      rw [← hqy]
      exact hx q (by rw [hcons]; exact List.mem_cons_of_mem _ hq)
  have hmem : a ∈ p0.1 :: rest.map Prod.fst := by
    rw [← hxall p0.1 (List.mem_cons_self _ _)]
    exact List.mem_cons_self _ _
  have hmin : foldMin p0.1 (rest.map Prod.fst) = a :=
    foldMin_eq_of _ _ a hmem (fun y hy => (hxall y hy).ge)
  have hmax : foldMax p0.1 (rest.map Prod.fst) = a :=
    foldMax_eq_of _ _ a hmem (fun y hy => (hxall y hy).le)
  have hp0 : decide (p0.1 = a) = true := by
    simp only [decide_eq_true_eq]
    exact hx p0 (by rw [hcons]; exact List.mem_cons_self _ _)
  have hfind : List.find? (fun p : Point => decide (p.1 = a)) (p0 :: rest)
      = some p0 := by
    simp [List.find?_cons, hp0]
  simp only [normalizeStage, hcons, List.map_cons, pyMinList, pyMaxList,
    hmin, hmax]
  rw [hfind]
  simp [sub_self]

/-- C1(amended): for every input whose nonempty polylines number 1 or 2
and whose points all share one x-coordinate, the conversion
deterministically propagates the numeric `ZeroDivisionError`; the code
has no `DegenerateGeometryError`. -/
theorem C1_zero_chord_zero_division (entities : List Curve) (out fmt : String)
    (a : ℚ)
    (hlen : (entities.filter (fun pts => !pts.isEmpty)).length = 1 ∨
            (entities.filter (fun pts => !pts.isEmpty)).length = 2)
    (hx : ∀ c ∈ entities.filter (fun pts => !pts.isEmpty), ∀ p ∈ c, p.1 = a) :
    extract_airfoil_from_dxf entities out fmt
      = Except.error PyErr.zeroDivisionError := by
  have hne : ∀ c ∈ entities.filter (fun pts => !pts.isEmpty), c ≠ [] := by
    intro c hcmem hcnil
    have hp := List.of_mem_filter hcmem
    rw [hcnil] at hp
    simp at hp
  obtain ⟨u, l, hcl, hxul⟩ :
      ∃ u l, classify (entities.filter (fun pts => !pts.isEmpty))
          = Except.ok (u, l) ∧ ∀ p ∈ u ++ l, p.1 = a := by
    rcases hlen with h1 | h2
    · obtain ⟨pts, hpts⟩ := List.length_eq_one.mp h1
      refine ⟨pts.take (argminFst pts + 1), pts.drop (argminFst pts), ?_, ?_⟩
      · rw [hpts, classify_one]
      · intro p hp
        have hmem : p ∈ pts := by
          rcases List.mem_append.mp hp with h | h
          · exact List.take_subset _ _ h
          · exact List.drop_subset _ _ h
        exact hx pts (by rw [hpts]; exact List.mem_cons_self _ _) p hmem
    · obtain ⟨b, c, hbc⟩ := List.length_eq_two.mp h2
      have hxany : ∀ p : Point, (p ∈ b ∨ p ∈ c) → p.1 = a := by
        intro p hp
        rcases hp with h | h
        · exact hx b (by rw [hbc]; simp) p h
        · exact hx c (by rw [hbc]; simp) p h
      rw [hbc, classify_pair]
      by_cases hm : meanDescLe b c = true
      · rw [if_pos hm]
        exact ⟨b, c, rfl, fun p hp => hxany p (List.mem_append.mp hp)⟩
      · rw [if_neg hm]
        exact ⟨c, b, rfl, fun p hp => hxany p (List.mem_append.mp hp).symm⟩
  have hulne : u ++ l ≠ [] := by
    intro hcon
    exact (classify_ok_ne_nil hne hcl).1 (List.append_eq_nil.mp hcon).1
  have hnorm := normalizeStage_const_x hulne hxul
  simp only [extract_airfoil_from_dxf, hcl, hnorm]

theorem C1_zero_chord_zero_division_witness :
    ((([[((0:ℚ),(0:ℚ)), ((0:ℚ),(1:ℚ))]] : List Curve).filter
        (fun pts => !pts.isEmpty)).length = 1 ∨
     (([[((0:ℚ),(0:ℚ)), ((0:ℚ),(1:ℚ))]] : List Curve).filter
        (fun pts => !pts.isEmpty)).length = 2) ∧
    extract_airfoil_from_dxf [[((0:ℚ),(0:ℚ)), ((0:ℚ),(1:ℚ))]] "deg.dat" "selig"
      = Except.error PyErr.zeroDivisionError :=
  ⟨Or.inl (by with_unfolding_all rfl),
   C1_zero_chord_zero_division [[((0:ℚ),(0:ℚ)), ((0:ℚ),(1:ℚ))]] "deg.dat" "selig" 0
     (Or.inl (by with_unfolding_all rfl)) (by with_unfolding_all decide)⟩

/-- C1(counterexample): a zero-chord input makes the conversion
propagate the numeric `ZeroDivisionError`, and the error type of the
program has no degenerate-geometry kind at all, refuting the claim that
a `DegenerateGeometryError` is raised and no numeric division-by-zero
exception propagates. -/
theorem C1_counterexample :
    extract_airfoil_from_dxf [[((0:ℚ),(2:ℚ)), ((0:ℚ),(3:ℚ))]] "cex1.dat" "selig"
      = Except.error PyErr.zeroDivisionError ∧
    (∀ e : PyErr, e = PyErr.zeroDivisionError ∨ ∃ msg, e = PyErr.valueError msg) := by
  constructor
  · with_unfolding_all rfl
  · intro e
    cases e with
    | valueError msg => exact Or.inr ⟨msg, rfl⟩
    | zeroDivisionError => exact Or.inl rfl

/-- C2(amended): a selector other than the exact strings "selig" and
"lednicer" is not rejected: no error is raised, the output file is still
opened for writing (created or truncated), and nothing is written to it. -/
theorem C2_unknown_format_silent_empty {entities : List Curve}
    {out fmt : String} {r : RunResult}
    (hs : fmt ≠ "selig") (hl : fmt ≠ "lednicer")
    (h : extract_airfoil_from_dxf entities out fmt = Except.ok r) :
    r.fileOpened = true ∧ r.lines = [] := by
  rw [extract_ok_unknown hs hl h]
  exact ⟨rfl, rfl⟩

theorem C2_unknown_format_silent_empty_witness :
    extract_airfoil_from_dxf [[((0:ℚ),(0:ℚ)), ((1:ℚ),(1:ℚ))]] "out.dat" "xml"
      = Except.ok ⟨true, []⟩ ∧
    ((⟨true, []⟩ : RunResult).fileOpened = true ∧
     (⟨true, []⟩ : RunResult).lines = []) :=
  ⟨by with_unfolding_all rfl,
   @C2_unknown_format_silent_empty [[((0:ℚ),(0:ℚ)), ((1:ℚ),(1:ℚ))]] "out.dat"
     "xml" ⟨true, []⟩ (by decide) (by decide) (by with_unfolding_all rfl)⟩

/-- C2(counterexample): with the unsupported selector "xml" on a valid
input the conversion does not raise `ValueError("unsupported format")`;
it succeeds, having opened (created or truncated) the output file and
written nothing, so the output path is not left untouched. -/
theorem C2_counterexample :
    extract_airfoil_from_dxf [[((0:ℚ),(0:ℚ)), ((2:ℚ),(1:ℚ))]] "c2out.dat" "xml"
      = Except.ok ⟨true, []⟩ := by
  with_unfolding_all rfl

/-- C7: every successful selig conversion writes exactly one label line
followed by the coordinate lines of `upper ++ lower[1:]`, whose count is
len(upper) + len(lower) - 1: the first lower point is elided exactly
once. -/
theorem C7_selig_line_count {entities : List Curve} {out : String}
    {r : RunResult}
    (h : extract_airfoil_from_dxf entities out "selig" = Except.ok r) :
    ∃ u l un ln : Curve,
      classify (entities.filter (fun pts => !pts.isEmpty)) = Except.ok (u, l) ∧
      normalizeStage u l = Except.ok (un, ln) ∧ ln ≠ [] ∧
      r.lines = Line.label (pyReplace out ".dat" "")
                  :: (un ++ ln.drop 1).map Line.coord ∧
      r.lines.length = 1 + (un.length + ln.length - 1) := by
  obtain ⟨u, l, un, ln, hc, hn, hr⟩ := extract_ok_elim h
  have hne : ∀ c ∈ entities.filter (fun pts => !pts.isEmpty), c ≠ [] := by
    intro c hcmem hcnil
    have hp := List.of_mem_filter hcmem
    rw [hcnil] at hp
    simp at hp
  have hnil := classify_ok_ne_nil hne hc
  obtain ⟨x0, xs, le_pt, hall, hfind, hch, hun, hln⟩ := normalizeStage_ok_elim hn
  have hlnne : ln ≠ [] := by
    rw [hln]
    intro hcon
    have hlen := congrArg List.length hcon
    simp only [List.length_map, length_pySorted, List.length_nil] at hlen
    exact hnil.2 (List.length_eq_zero.mp hlen)
  have hlines : r.lines = Line.label (pyReplace out ".dat" "")
      :: (un ++ ln.drop 1).map Line.coord := by
    rw [hr]
    simp [writeStage]
  refine ⟨u, l, un, ln, hc, hn, hlnne, hlines, ?_⟩
  rw [hlines]
  simp only [List.length_cons, List.length_map, List.length_append,
    List.length_drop]
  have hpos : 0 < ln.length := List.length_pos.mpr hlnne
  omega

theorem C7_selig_line_count_witness :
    ∃ u l un ln : Curve,
      classify (([[((0:ℚ),(0:ℚ)), ((10:ℚ),(5:ℚ))]] : List Curve).filter
          (fun pts => !pts.isEmpty)) = Except.ok (u, l) ∧
      normalizeStage u l = Except.ok (un, ln) ∧ ln ≠ [] ∧
      (⟨true, [Line.label "naca.txt", Line.coord ((0:ℚ),(0:ℚ)),
               Line.coord ((1:ℚ),(1:ℚ)/2)]⟩ : RunResult).lines
        = Line.label (pyReplace "naca.txt" ".dat" "")
            :: (un ++ ln.drop 1).map Line.coord ∧
      (⟨true, [Line.label "naca.txt", Line.coord ((0:ℚ),(0:ℚ)),
               Line.coord ((1:ℚ),(1:ℚ)/2)]⟩ : RunResult).lines.length
        = 1 + (un.length + ln.length - 1) :=
  C7_selig_line_count (by with_unfolding_all rfl)

/-- C8(amended): the conversion function itself compares the selector
case-sensitively against exactly "selig" and "lednicer", defaulting to
"selig"; the short forms "s"/"l" and case-insensitive matching are
handled only by the interactive prompt `resolveFormat`, which lowercases
the answer, accepts exactly s/selig/l/lednicer, and re-prompts (none)
otherwise; a selector outside {"selig","lednicer"} passed to the
conversion function is not rejected but silently writes nothing. -/
theorem C8_format_selectors :
    (∀ s : String, resolveFormat s = some "selig" ↔
        (pyLower s = "s" ∨ pyLower s = "selig")) ∧
    (∀ s : String, resolveFormat s = some "lednicer" ↔
        (pyLower s = "l" ∨ pyLower s = "lednicer")) ∧
    (∀ s : String, resolveFormat s = none ↔
        ¬ (pyLower s = "s" ∨ pyLower s = "selig" ∨
           pyLower s = "l" ∨ pyLower s = "lednicer")) ∧
    (∀ (entities : List Curve) (out : String),
        extract_airfoil_from_dxf entities out
          = extract_airfoil_from_dxf entities out "selig") ∧
    (∀ (entities : List Curve) (out fmt : String) (r : RunResult),
        fmt ≠ "selig" → fmt ≠ "lednicer" →
        extract_airfoil_from_dxf entities out fmt = Except.ok r →
        r.lines = []) := by
  have hne1 : ("lednicer" : String) ≠ "selig" := by decide
  refine ⟨?_, ?_, ?_, fun entities out => rfl, ?_⟩
  · intro s
    simp only [resolveFormat]
    by_cases h1 : pyLower s = "s" ∨ pyLower s = "selig"
    · rw [if_pos h1]
      simp [h1]
    · rw [if_neg h1]
      by_cases h2 : pyLower s = "l" ∨ pyLower s = "lednicer"
      · rw [if_pos h2]
        constructor
        · intro hco
          exact absurd (Option.some.inj hco) hne1
        · intro hco
          exact absurd hco h1
      · rw [if_neg h2]
        constructor
        · intro hco
          cases hco
        · intro hco
          exact absurd hco h1
  · intro s
    simp only [resolveFormat]
    by_cases h1 : pyLower s = "s" ∨ pyLower s = "selig"
    · rw [if_pos h1]
      constructor
      · intro hco
        exact absurd (Option.some.inj hco) (fun hco' => hne1 hco'.symm)
      · intro hco
        rcases h1 with h | h <;> rcases hco with h' | h' <;>
          exact absurd (h.symm.trans h') (by decide)
    · rw [if_neg h1]
      by_cases h2 : pyLower s = "l" ∨ pyLower s = "lednicer"
      · rw [if_pos h2]
        simp [h2]
      · rw [if_neg h2]
        constructor
        · intro hco
          cases hco
        · intro hco
          exact absurd hco h2
  · intro s
    simp only [resolveFormat]
    by_cases h1 : pyLower s = "s" ∨ pyLower s = "selig"
    · rw [if_pos h1]
      constructor
      · intro hco
        cases hco
      · intro hco
        exact absurd (Or.imp_right Or.inl h1) hco
    · rw [if_neg h1]
      by_cases h2 : pyLower s = "l" ∨ pyLower s = "lednicer"
      · rw [if_pos h2]
        constructor
        · intro hco
          cases hco
        · intro hco
          push_neg at hco
          rcases h2 with h | h
          · exact absurd h hco.2.2.1
          · exact absurd h hco.2.2.2
      · rw [if_neg h2]
        constructor
        · intro _
          intro hco
          rcases hco with h | h | h | h
          · exact h1 (Or.inl h)
          · exact h1 (Or.inr h)
          · exact h2 (Or.inl h)
          · exact h2 (Or.inr h)
        · intro _
          rfl
  · intro entities out fmt r hs hl h
    rw [extract_ok_unknown hs hl h]

theorem C8_format_selectors_witness :
    resolveFormat "S" = some "selig" ∧
    resolveFormat "LEDNICER" = some "lednicer" ∧
    resolveFormat "xml" = none :=
  ⟨(C8_format_selectors.1 "S").mpr (Or.inl (by with_unfolding_all rfl)),
   (C8_format_selectors.2.1 "LEDNICER").mpr
     (Or.inr (by with_unfolding_all rfl)),
   (C8_format_selectors.2.2.1 "xml").mpr (by with_unfolding_all decide)⟩

/-- C8(counterexample): the selector "s", a member of the claimed
accepted set, does not make `extract_airfoil_from_dxf` produce the selig
layout: it writes nothing, while "selig" on the same input produces the
label and coordinate lines. -/
theorem C8_counterexample :
    extract_airfoil_from_dxf [[((0:ℚ),(0:ℚ)), ((4:ℚ),(2:ℚ))]] "c8.dat" "s"
      = Except.ok ⟨true, []⟩ ∧
    extract_airfoil_from_dxf [[((0:ℚ),(0:ℚ)), ((4:ℚ),(2:ℚ))]] "c8.dat" "selig"
      = Except.ok ⟨true, [Line.label "c8", Line.coord ((0:ℚ),(0:ℚ)),
                          Line.coord ((1:ℚ),(1:ℚ)/2)]⟩ ∧
    ([] : List Line) ≠ [Line.label "c8", Line.coord ((0:ℚ),(0:ℚ)),
                        Line.coord ((1:ℚ),(1:ℚ)/2)] := by
  refine ⟨by with_unfolding_all rfl, by with_unfolding_all rfl, ?_⟩
  intro hco
  cases hco

/-- C9(amended): the label of the first output line is the requested
output path with every occurrence of the substring ".dat" removed (the
directory part and any other extension are kept, so it is not in general
the base name without its extension); selig writes that label and
lednicer writes it uppercased followed by " AIRFOIL". -/
theorem C9_label_derivation :
    (∀ (entities : List Curve) (out : String) (r : RunResult),
        extract_airfoil_from_dxf entities out "selig" = Except.ok r →
        r.lines.head? = some (Line.label (pyReplace out ".dat" ""))) ∧
    (∀ (entities : List Curve) (out : String) (r : RunResult),
        extract_airfoil_from_dxf entities out "lednicer" = Except.ok r →
        r.lines.head?
          = some (Line.label (pyUpper (pyReplace out ".dat" "")
                               ++ " AIRFOIL"))) := by
  constructor
  · intro entities out r h
    obtain ⟨u, l, un, ln, hc, hn, hr⟩ := extract_ok_elim h
    rw [hr]
    simp [writeStage]
  · intro entities out r h
    obtain ⟨u, l, un, ln, hc, hn, hr⟩ := extract_ok_elim h
    rw [hr]
    simp [writeStage]

theorem C9_label_derivation_witness :
    (⟨true, [Line.label "naca2.txt", Line.coord ((0:ℚ),(0:ℚ)),
             Line.coord ((1:ℚ),(1:ℚ)/2)]⟩ : RunResult).lines.head?
      = some (Line.label (pyReplace "naca2.txt" ".dat" "")) :=
  C9_label_derivation.1 [[((0:ℚ),(0:ℚ)), ((10:ℚ),(5:ℚ))]] "naca2.txt"
    ⟨true, [Line.label "naca2.txt", Line.coord ((0:ℚ),(0:ℚ)),
            Line.coord ((1:ℚ),(1:ℚ)/2)]⟩ (by with_unfolding_all rfl)

/-- C9(counterexample): for the output path "naca.txt" the written label
is "naca.txt" (Python's replace('.dat','') removes nothing here), while
the base name without its extension is "naca"; the claim's derivation is
refuted. -/
theorem C9_counterexample :
    extract_airfoil_from_dxf [[((0:ℚ),(0:ℚ)), ((10:ℚ),(5:ℚ))]] "naca.txt" "selig"
      = Except.ok ⟨true, [Line.label "naca.txt", Line.coord ((0:ℚ),(0:ℚ)),
                          Line.coord ((1:ℚ),(1:ℚ)/2)]⟩ ∧
    specLabel "naca.txt" = "naca" ∧
    ("naca.txt" : String) ≠ "naca" :=
  ⟨by with_unfolding_all rfl, by with_unfolding_all rfl, by decide⟩

/-- C5: a single-curve input is split at the index of the first point
attaining the minimal x (the leading-edge vertex): `upper` is the prefix
through and including that index and `lower` the suffix from it, so the
two surfaces overlap in exactly that one position — their lengths sum to
the curve length plus one, the shared point is the last of `upper` and
the first of `lower`, it attains the minimal x with every earlier point
strictly larger, and after normalization the shared point is exactly
(0, 0) at the end of `upper` and the head of `lower`. -/
theorem C5_single_curve_split (pts : Curve) (hne : pts ≠ []) :
    ∃ m : Point,
      pts[argminFst pts]? = some m ∧
      classify [pts] = Except.ok (pts.take (argminFst pts + 1),
                                  pts.drop (argminFst pts)) ∧
      (pts.take (argminFst pts + 1)).length
          + (pts.drop (argminFst pts)).length = pts.length + 1 ∧
      (pts.take (argminFst pts + 1)).getLast? = some m ∧
      (pts.drop (argminFst pts)).head? = some m ∧
      (∀ q ∈ pts, m.1 ≤ q.1) ∧
      (∀ j, j < argminFst pts → ∀ q, pts[j]? = some q → m.1 < q.1) ∧
      (∀ un ln : Curve,
        normalizeStage (pts.take (argminFst pts + 1))
            (pts.drop (argminFst pts)) = Except.ok (un, ln) →
        un.getLast? = some ((0:ℚ), (0:ℚ)) ∧
        ln.head? = some ((0:ℚ), (0:ℚ))) := by
  obtain ⟨m, hm, hmin, hfirst⟩ := argminFst_spec pts hne
  obtain ⟨hlt, hgetm⟩ := List.getElem?_eq_some_iff.mp hm
  set i := argminFst pts with hi
  have htake : pts.take (i + 1) = pts.take i ++ [m] := by
    rw [List.take_succ, hm]
    rfl
  have hdrop : pts.drop i = m :: pts.drop (i + 1) := by
    rw [List.drop_eq_getElem_cons hlt, hgetm]
  have hfront : ∀ q ∈ pts.take i, m.1 < q.1 := by
    intro q hq
    obtain ⟨j, hj, hjq⟩ := List.mem_iff_getElem.mp hq
    have hjlen : j < i := by
      have hj' := hj
      rw [List.length_take] at hj'
      omega
    have hq' : pts[j] = q := (List.getElem_take pts).symm.trans hjq
    have hq?' : pts[j]? = some q :=
      (List.getElem?_eq_getElem (hjlen.trans hlt)).trans (congrArg some hq')
    exact hfirst j hjlen q hq?'
  refine ⟨m, hm, classify_one pts, ?_, ?_, ?_, hmin, hfirst, ?_⟩
  · rw [List.length_take, List.length_drop]
    omega
  · rw [htake, List.getLast?_concat]
  · rw [hdrop]
    rfl
  · intro un ln hnorm
    obtain ⟨x0, xs, le_pt, hall, hfind, hch, hun, hln⟩ :=
      normalizeStage_ok_elim hnorm
    have hmem_m_upper : m ∈ pts.take (i + 1) := by
      rw [htake]
      exact List.mem_append.mpr (Or.inr (List.mem_cons_self _ _))
    have hmemx : m.1 ∈ x0 :: xs := by
      rw [← hall]
      exact List.mem_map_of_mem _ (List.mem_append.mpr (Or.inl hmem_m_upper))
    have hlb : ∀ y ∈ x0 :: xs, m.1 ≤ y := by
      intro y hy
      rw [← hall] at hy
      obtain ⟨q, hq, hqy⟩ := List.mem_map.mp hy
      rw [← hqy]
      have hqpts : q ∈ pts := by
        rcases List.mem_append.mp hq with h | h
        · exact List.take_subset _ _ h
        · exact List.drop_subset _ _ h
      exact hmin q hqpts
    have hminval : foldMin x0 xs = m.1 := foldMin_eq_of _ _ _ hmemx hlb
    have hfindm : (pts.take (i + 1) ++ pts.drop i).find?
        (fun p : Point => decide (p.1 = foldMin x0 xs)) = some m := by
      rw [hminval, htake, hdrop, List.append_assoc, List.find?_append]
      have hnone : (pts.take i).find?
          (fun p : Point => decide (p.1 = m.1)) = none := by
        rw [List.find?_eq_none]
        intro q hq
        simp only [decide_eq_true_eq]
        exact (hfront q hq).ne'
      rw [hnone, Option.none_or]
      exact List.find?_cons_of_pos _ (by simp)
    have hle_pt : le_pt = m := Option.some.inj (hfind.symm.trans hfindm)
    have hnormm : normPt m (foldMax x0 xs - foldMin x0 xs) m
        = ((0:ℚ), (0:ℚ)) := by
      simp [normPt]
    constructor
    · rw [hun, hle_pt]
      have hsorted : pySorted descXLe (pts.take (i + 1))
          = pySorted descXLe (pts.take i) ++ [m] := by
        rw [htake]
        apply pySorted_concat_of_max
        intro y hy
        simp only [descXLe, decide_eq_true_eq]
        exact le_of_lt (hfront y hy)
      rw [hsorted, List.map_append, List.map_cons, List.map_nil,
        List.getLast?_concat, hnormm]
    · rw [hln, hle_pt]
      have hsorted : pySorted ascXLe (pts.drop i)
          = m :: pySorted ascXLe (pts.drop (i + 1)) := by
        rw [hdrop]
        apply pySorted_cons_of_min
        intro b hb
        simp only [ascXLe, decide_eq_true_eq]
        exact hmin b (List.drop_subset _ _ hb)
      rw [hsorted, List.map_cons, List.head?_cons, hnormm]

theorem C5_single_curve_split_witness :
    classify [[((1:ℚ),(5:ℚ)), ((0:ℚ),(2:ℚ)), ((3:ℚ),(4:ℚ))]]
      = Except.ok ([((1:ℚ),(5:ℚ)), ((0:ℚ),(2:ℚ))],
                   [((0:ℚ),(2:ℚ)), ((3:ℚ),(4:ℚ))]) := by
  obtain ⟨m, hm, hcl, hrest⟩ := C5_single_curve_split
    [((1:ℚ),(5:ℚ)), ((0:ℚ),(2:ℚ)), ((3:ℚ),(4:ℚ))] (List.cons_ne_nil _ _)
  rw [hcl]
  with_unfolding_all rfl

end Dxf2Dat
